import Mathlib

/-!
# FerroFlow: shallow embedding and verification

A shallow embedding of the `ferroflow` tensor-compute engine (Rust) in Lean 4,
together with theorems settling the specification claims about it.

Modelling conventions:
* `f32` values are modelled as exact rationals (`ℚ`); the claims under study are
  structural (index formulas, shape checks, error routing), not about rounding.
* A Rust function returning `Result<T, FerroFlowError>` is modelled as
  `RustResult T`, with a third outcome `panicked` for a Rust panic
  (out-of-bounds indexing, explicit `panic!`). A function that returns a plain
  value but may panic is modelled with the same type, never producing `err`.
* Error message strings (built with `format!` in the source) are elided: only
  the error variant matters to the claims.
* Rust `Vec<f32>` buffers are `List ℚ`; `v[i]` is the checked read `idx`
  (panics out of bounds) and `v[i] = x` the checked write `setIdx`.
-/

/-- The error taxonomy of `src/error.rs` (`FerroFlowError`), message strings
elided. -/
inductive FFError where
  | MetalError
  | CPUError
  | ShapeMismatch
  | InvalidOperation
  | InitError
  | BufferError
  deriving DecidableEq, Repr

/-- Outcome of a Rust computation: `ok` (the `Ok` arm of `Result`),
`err` (the `Err` arm), or `panicked` (a Rust panic such as an out-of-bounds
index or an explicit `panic!`). -/
inductive RustResult (α : Type) where
  | ok : α → RustResult α
  | err : FFError → RustResult α
  | panicked : RustResult α
  deriving DecidableEq, Repr

namespace RustResult

def bind' : RustResult α → (α → RustResult β) → RustResult β
  | .ok a, f => f a
  | .err e, _ => .err e
  | .panicked, _ => .panicked

instance : Monad RustResult where
  pure := .ok
  bind := bind'

@[simp] theorem bind_ok (a : α) (f : α → RustResult β) :
    (RustResult.ok a) >>= f = f a := rfl

@[simp] theorem bind_err (e : FFError) (f : α → RustResult β) :
    (RustResult.err e : RustResult α) >>= f = .err e := rfl

@[simp] theorem bind_panicked (f : α → RustResult β) :
    (RustResult.panicked : RustResult α) >>= f = .panicked := rfl

@[simp] theorem pure_eq_ok (a : α) : (pure a : RustResult α) = .ok a := rfl

instance : LawfulMonad RustResult :=
  LawfulMonad.mk' RustResult
    (by intro α x; cases x <;> rfl)
    (by intro α β x f; rfl)
    (by intro α β γ x f g; cases x <;> rfl)

end RustResult

/-- Rust slice/`Vec` indexing `v[i]`: returns the element when in bounds and
panics otherwise. -/
def idx (v : List ℚ) (i : ℕ) : RustResult ℚ :=
  match v.get? i with
  | some x => .ok x
  | none => .panicked

/-- Rust indexed assignment `v[i] = x`: replaces the element when in bounds
and panics otherwise. -/
def setIdx (v : List ℚ) (i : ℕ) (x : ℚ) : RustResult (List ℚ) :=
  if i < v.length then .ok (v.set i x) else .panicked

@[simp] theorem idx_of_lt {v : List ℚ} {i : ℕ} (h : i < v.length) :
    idx v i = .ok (v.getD i 0) := by
  simp [idx, List.get?_eq_get h, List.getD_eq_getElem _ _ h, List.getElem?_eq_getElem h]

@[simp] theorem setIdx_of_lt {v : List ℚ} {i : ℕ} (x : ℚ) (h : i < v.length) :
    setIdx v i x = .ok (v.set i x) := by
  simp [setIdx, h]

/-! ## Shape (`src/tensor/mod.rs`) -/

/-- `Shape(Vec<usize>)`: the shape of a tensor, an ordered list of
dimensions. -/
structure Shape where
  dims : List ℕ
  deriving DecidableEq, Repr

namespace Shape

/-- `Shape::new`. -/
def new (dims : List ℕ) : Shape := ⟨dims⟩

/-- `Shape::size`: product of the dimensions. -/
def size (s : Shape) : ℕ := s.dims.prod

/-- `Shape::batch_size`: `Some(dims[0])` iff the rank is at least 3. -/
def batch_size (s : Shape) : Option ℕ :=
  if s.dims.length ≥ 3 then some (s.dims.getD 0 0) else none

/-- `Shape::matrix_dims`: `(dims[0], dims[1])` for rank 2,
`(dims[1], dims[2])` for rank 3; any other rank hits
`panic!("Invalid shape for matrix operation")`, modelled as `none`. -/
def matrix_dims (s : Shape) : Option (ℕ × ℕ) :=
  match s.dims with
  | [a, b] => some (a, b)
  | [_, b, c] => some (b, c)
  | _ => none

/-- `Shape::new_batched`. -/
def new_batched (batch rows cols : ℕ) : Shape := ⟨[batch, rows, cols]⟩

end Shape

/-! ## CPU backend (`src/compute/cpu.rs`)

The CPU backend's `Buffer` type is `Vec<f32>`, modelled as `List ℚ`; its
`Context` is the stateless unit. -/

namespace CPUBackend

/-- `CPUBackend::allocate_buffer`: with data, returns a copy of the data
(performing no length check); without, a zero-filled buffer of `size`
elements. Never fails. -/
def allocate_buffer (size : ℕ) (data : Option (List ℚ)) : RustResult (List ℚ) :=
  match data with
  | some d => .ok d
  | none => .ok (List.replicate size 0)

/-- `CPUBackend::read_buffer`: clones the buffer. -/
def read_buffer (buffer : List ℚ) : RustResult (List ℚ) := .ok buffer

/-- `CPUBackend::element_wise_add`: checks both lengths against `size`
(`BufferError` on mismatch), then zips with `+`. -/
def element_wise_add (a b : List ℚ) (size : ℕ) : RustResult (List ℚ) :=
  if a.length ≠ size ∨ b.length ≠ size then .err .BufferError
  else .ok (List.zipWith (· + ·) a b)

/-- `CPUBackend::element_wise_multiply`: checks both lengths against `size`
(`BufferError` on mismatch), then zips with `*`. -/
def element_wise_multiply (a b : List ℚ) (size : ℕ) : RustResult (List ℚ) :=
  if a.length ≠ size ∨ b.length ≠ size then .err .BufferError
  else .ok (List.zipWith (· * ·) a b)

/-- `CPUBackend::scalar_multiply`: checks the input length against `size`
(`BufferError` on mismatch), then maps `(* scalar)`. -/
def scalar_multiply (input : List ℚ) (scalar : ℚ) (size : ℕ) :
    RustResult (List ℚ) :=
  if input.length ≠ size then .err .BufferError
  else .ok (input.map (· * scalar))

/-- `CPUBackend::synchronize`: a no-op. -/
def synchronize : RustResult Unit := .ok ()

/-- The inner accumulation loop of `CPUBackend::matmul`:
`for kk in 0..k { sum += a[i*k+kk] * b[kk*n+j] }`, starting from `sum`. -/
def matmulSumLoop (a b : List ℚ) (n k i j : ℕ) (sum : ℚ) : RustResult ℚ :=
  (List.range k).foldlM (fun s kk => do
    let x ← idx a (i * k + kk)
    let y ← idx b (kk * n + j)
    pure (s + x * y)) sum

/-- `CPUBackend::matmul`: `c = vec![0.0; m*n]`, then the naive triple loop
writing `c[i*n+j] = Σ_kk a[i*k+kk] * b[kk*n+j]`. Returns `Ok(c)`. -/
def matmul (a b : List ℚ) (m n k : ℕ) : RustResult (List ℚ) :=
  (List.range m).foldlM (fun c i =>
    (List.range n).foldlM (fun c j => do
      let sum ← matmulSumLoop a b n k i j 0
      setIdx c (i * n + j) sum) c)
    (List.replicate (m * n) 0)

/-- The inner accumulation loop of `CPUBackend::matmul_batched`, with the
batch offsets `oa = batch*m*k` and `ob = batch*k*n` added to each index. -/
def matmulBatchedSumLoop (a b : List ℚ) (n k oa ob i j : ℕ) (sum : ℚ) :
    RustResult ℚ :=
  (List.range k).foldlM (fun s kk => do
    let x ← idx a (oa + (i * k + kk))
    let y ← idx b (ob + (kk * n + j))
    pure (s + x * y)) sum

/-- `CPUBackend::matmul_batched`: `c = vec![0.0; batch_size*m*n]`, then for
each batch index the same triple loop at offsets `batch*m*k`, `batch*k*n`,
`batch*m*n`. Returns `Ok(c)`. -/
def matmul_batched (a b : List ℚ) (batch_size m n k : ℕ) :
    RustResult (List ℚ) :=
  (List.range batch_size).foldlM (fun c batch =>
    (List.range m).foldlM (fun c i =>
      (List.range n).foldlM (fun c j => do
        let sum ← matmulBatchedSumLoop a b n k (batch * m * k) (batch * k * n) i j 0
        setIdx c (batch * m * n + (i * n + j)) sum) c) c)
    (List.replicate (batch_size * m * n) 0)

/-- Modelled from the spec: the CPU backend does not define the trait's
required `matmul_transposed` anywhere under the crate's sources; §4.3 of the
spec allows a conforming implementation to honor `transpose_a`/`transpose_b`
"by adjusting the indexing formula rather than materializing a transposed
copy". Index of `a[i,kk]`: `i*k+kk` untransposed, `kk*m+i` transposed; of
`b[kk,j]`: `kk*n+j` untransposed, `j*k+kk` transposed. -/
def matmul_transposed (a b : List ℚ) (m n k : ℕ)
    (transpose_a transpose_b : Bool) : RustResult (List ℚ) :=
  (List.range m).foldlM (fun c i =>
    (List.range n).foldlM (fun c j => do
      let sum ← (List.range k).foldlM (fun s kk => do
        let x ← idx a (if transpose_a then kk * m + i else i * k + kk)
        let y ← idx b (if transpose_b then j * k + kk else kk * n + j)
        pure (s + x * y)) (0 : ℚ)
      setIdx c (i * n + j) sum) c)
    (List.replicate (m * n) 0)

/-- Modelled from the spec: the CPU backend does not define the trait's
required `matmul_transposed_batched` anywhere under the crate's sources; per
§4.2 it is "the same per batch index, independent batches, outputs
concatenated in batch-major order". -/
def matmul_transposed_batched (a b : List ℚ) (batch_size m n k : ℕ)
    (transpose_a transpose_b : Bool) : RustResult (List ℚ) :=
  (List.range batch_size).foldlM (fun c batch =>
    (List.range m).foldlM (fun c i =>
      (List.range n).foldlM (fun c j => do
        let sum ← (List.range k).foldlM (fun s kk => do
          let x ← idx a (batch * m * k +
            (if transpose_a then kk * m + i else i * k + kk))
          let y ← idx b (batch * k * n +
            (if transpose_b then j * k + kk else kk * n + j))
          pure (s + x * y)) (0 : ℚ)
        setIdx c (batch * m * n + (i * n + j)) sum) c) c)
    (List.replicate (batch_size * m * n) 0)

end CPUBackend

/-! ## Metal backend (`src/compute/metal.rs`)

Only the parts the claims touch are embedded: `allocate_buffer` (C3) and the
kernel-pipeline selection inside the three matmul dispatch functions (C5).
The device buffer is modelled by its f32 contents; `new_buffer` with shared
storage is an external allocation API, modelled as zero-filled storage (§4.2
of the spec: "allocates zero-filled storage otherwise"). -/

namespace MetalBackend

/-- `const TILE_SIZE: u32 = 16`. -/
def TILE_SIZE : ℕ := 16

/-- The compute pipelines held by `MetalContext` that matmul dispatch
selects among. -/
inductive Pipeline where
  | matmul
  | matmulTiled
  | matmulBatched
  | matmulBatchedTiled
  | matmulTransposed
  | matmulTransposedTiled
  deriving DecidableEq, Repr

/-- `MetalBackend::allocate_buffer`: with data, checks `data.len() == size`
(`BufferError` on mismatch) and copies the data into a new device buffer;
without, allocates a buffer of `size` elements. -/
def allocate_buffer (size : ℕ) (data : Option (List ℚ)) :
    RustResult (List ℚ) :=
  match data with
  | some d =>
      if d.length ≠ size then .err .BufferError
      else .ok d
  | none => .ok (List.replicate size 0)

/-- The pipeline selection inside `MetalBackend::matmul`:
`use_tiled = m >= TILE_SIZE && n >= TILE_SIZE && k >= TILE_SIZE`, choosing
`matmul_tiled_pipeline` else `matmul_pipeline`. -/
def matmulPipeline (m n k : ℕ) : Pipeline :=
  if m ≥ TILE_SIZE ∧ n ≥ TILE_SIZE ∧ k ≥ TILE_SIZE then .matmulTiled
  else .matmul

/-- The pipeline selection inside `MetalBackend::matmul_batched`: same
predicate, choosing `matmul_batched_tiled_pipeline` else
`matmul_batched_pipeline`. -/
def matmulBatchedPipeline (m n k : ℕ) : Pipeline :=
  if m ≥ TILE_SIZE ∧ n ≥ TILE_SIZE ∧ k ≥ TILE_SIZE then .matmulBatchedTiled
  else .matmulBatched

/-- The pipeline selection inside `MetalBackend::matmul_transposed`: same
predicate, choosing `matmul_transposed_tiled_pipeline` else
`matmul_transposed_pipeline`. -/
def matmulTransposedPipeline (m n k : ℕ) : Pipeline :=
  if m ≥ TILE_SIZE ∧ n ≥ TILE_SIZE ∧ k ≥ TILE_SIZE then .matmulTransposedTiled
  else .matmulTransposed

end MetalBackend

/-! ## Tensor engine (`src/tensor/mod.rs`), instantiated at the CPU backend

`Tensor<B>` is generic over the backend; all shape validation and dispatch
logic is backend-independent. We instantiate `B = CPUBackend`, so the buffer
is `List ℚ` and the shared context is stateless (elided). -/

/-- `Tensor<CPUBackend>`: a buffer and a shape (the `Arc<Context>` of the
stateless CPU backend is elided). -/
structure Tensor where
  buffer : List ℚ
  shape : Shape
  deriving DecidableEq, Repr

/-- The representation invariant of §3 of the spec: the backing buffer's
element count equals the shape's size. -/
def Tensor.WF (t : Tensor) : Prop := t.buffer.length = t.shape.size

namespace Tensor

/-- `Tensor::new`: fails with `ShapeMismatch` if `data.len() != shape.size()`,
otherwise allocates through the backend. -/
def new (shape : Shape) (data : List ℚ) : RustResult Tensor := do
  if data.length ≠ shape.size then .err .ShapeMismatch
  else do
    let buffer ← CPUBackend.allocate_buffer shape.size (some data)
    pure ⟨buffer, shape⟩

/-- `Tensor::zeros`: zero-filled construction. -/
def zeros (shape : Shape) : RustResult Tensor := do
  let buffer ← CPUBackend.allocate_buffer shape.size none
  pure ⟨buffer, shape⟩

/-- `Tensor::data`: reads the buffer back. -/
def data (t : Tensor) : RustResult (List ℚ) :=
  CPUBackend.read_buffer t.buffer

/-- `Tensor::add`: `ShapeMismatch` if the shapes differ, else delegates to
`element_wise_add` and keeps the shape. -/
def add (a other : Tensor) : RustResult Tensor :=
  if a.shape ≠ other.shape then .err .ShapeMismatch
  else do
    let result_buffer ←
      CPUBackend.element_wise_add a.buffer other.buffer a.shape.size
    pure ⟨result_buffer, a.shape⟩

/-- `Tensor::multiply`: `ShapeMismatch` if the shapes differ, else delegates
to `element_wise_multiply` and keeps the shape. -/
def multiply (a other : Tensor) : RustResult Tensor :=
  if a.shape ≠ other.shape then .err .ShapeMismatch
  else do
    let result_buffer ←
      CPUBackend.element_wise_multiply a.buffer other.buffer a.shape.size
    pure ⟨result_buffer, a.shape⟩

/-- `Tensor::scalar_multiply`: delegates to the backend and keeps the
shape. -/
def scalar_multiply (a : Tensor) (scalar : ℚ) : RustResult Tensor := do
  let result_buffer ←
    CPUBackend.scalar_multiply a.buffer scalar a.shape.size
  pure ⟨result_buffer, a.shape⟩

/-- `Tensor::matmul`: rank check, `matrix_dims` (panics on rank outside
{2,3}), inner-dimension check, then classification on
`(batch_size, batch_size)`: equal batches → batched matmul with shape
`[b, m, n]`; both plain → matmul with shape `[m, n]`; anything else →
`ShapeMismatch`. -/
def matmul (a other : Tensor) : RustResult Tensor :=
  if a.shape.dims.length < 2 ∨ other.shape.dims.length < 2 then
    .err .ShapeMismatch
  else
    match a.shape.matrix_dims with
    | none => .panicked
    | some (m, k1) =>
      match other.shape.matrix_dims with
      | none => .panicked
      | some (k2, n) =>
        if k1 ≠ k2 then .err .ShapeMismatch
        else
          match a.shape.batch_size, other.shape.batch_size with
          | some b1, some b2 =>
            if b1 = b2 then do
              let result_buffer ←
                CPUBackend.matmul_batched a.buffer other.buffer b1 m n k1
              pure ⟨result_buffer, Shape.new_batched b1 m n⟩
            else .err .ShapeMismatch
          | none, none => do
              let result_buffer ←
                CPUBackend.matmul a.buffer other.buffer m n k1
              pure ⟨result_buffer, Shape.new [m, n]⟩
          | _, _ => .err .ShapeMismatch

/-- Modelled from the spec: `Tensor::matmul_transposed` is invoked by
`TransposedTensor`'s `Mul` impl but is not defined anywhere under the crate's
sources. Per §4.5 of the spec it performs "same shape-compatibility checks
but reinterpreting `self`/`other`'s logical rows/cols under the transpose
flags before checking the inner-dimension match". -/
def matmul_transposed (a other : Tensor) (transpose_a transpose_b : Bool) :
    RustResult Tensor :=
  if a.shape.dims.length < 2 ∨ other.shape.dims.length < 2 then
    .err .ShapeMismatch
  else
    match a.shape.matrix_dims with
    | none => .panicked
    | some (ra, ca) =>
      match other.shape.matrix_dims with
      | none => .panicked
      | some (rb, cb) =>
        let m := if transpose_a then ca else ra
        let k1 := if transpose_a then ra else ca
        let k2 := if transpose_b then cb else rb
        let n := if transpose_b then rb else cb
        if k1 ≠ k2 then .err .ShapeMismatch
        else
          match a.shape.batch_size, other.shape.batch_size with
          | some b1, some b2 =>
            if b1 = b2 then do
              let result_buffer ← CPUBackend.matmul_transposed_batched
                a.buffer other.buffer b1 m n k1 transpose_a transpose_b
              pure ⟨result_buffer, Shape.new_batched b1 m n⟩
            else .err .ShapeMismatch
          | none, none => do
              let result_buffer ← CPUBackend.matmul_transposed
                a.buffer other.buffer m n k1 transpose_a transpose_b
              pure ⟨result_buffer, Shape.new [m, n]⟩
          | _, _ => .err .ShapeMismatch

/-- `Tensor::eye`: a zero vector of length `size*size` with `1.0` written at
each `data[i*size+i]`, passed to `Tensor::new` with shape `[size, size]`. -/
def eye (size : ℕ) : RustResult Tensor := do
  let data ← (List.range size).foldlM
    (fun d i => setIdx d (i * size + i) 1)
    (List.replicate (size * size) (0 : ℚ))
  Tensor.new (Shape.new [size, size]) data

/-- `Tensor::full`: a constant vector of length `shape.size()` passed to
`Tensor::new`. -/
def full (shape : Shape) (value : ℚ) : RustResult Tensor :=
  Tensor.new shape (List.replicate shape.size value)

end Tensor

/-! ## Composition layer (`src/tensor/mod.rs`) -/

/-- `TransposedTensor`: a tensor paired with a transpose flag. -/
structure TransposedTensor where
  tensor : Tensor
  transpose : Bool

/-- `Tensor::t`: wraps with the transpose flag set. -/
def Tensor.t (x : Tensor) : TransposedTensor := ⟨x, true⟩

/-- The `Mul` impl for `&TransposedTensor`: invokes
`matmul_transposed` with both flags. -/
def TransposedTensor.mul (a other : TransposedTensor) : RustResult Tensor :=
  a.tensor.matmul_transposed other.tensor a.transpose other.transpose

/-- `TensorChain`: holds a `Result<Tensor>`. A panic raised while a step runs
is recorded in the held slot (in Rust it would unwind past the chain); the
held value of a constructed chain is never the panic marker, and the claims
about the chain concern only the error case. -/
structure TensorChain where
  tensor : RustResult Tensor

/-- `Tensor::chain`. -/
def Tensor.chain (t : Tensor) : TensorChain := ⟨.ok t⟩

namespace TensorChain

/-- `TensorChain::matmul`: `self.tensor.and_then(|t| t.matmul(other))`. -/
def matmul (c : TensorChain) (other : Tensor) : TensorChain :=
  ⟨c.tensor >>= fun t => t.matmul other⟩

/-- `TensorChain::add`: `self.tensor.and_then(|t| t.add(other))`. -/
def add (c : TensorChain) (other : Tensor) : TensorChain :=
  ⟨c.tensor >>= fun t => t.add other⟩

/-- `TensorChain::multiply`: `self.tensor.and_then(|t| t.multiply(other))`. -/
def multiply (c : TensorChain) (other : Tensor) : TensorChain :=
  ⟨c.tensor >>= fun t => t.multiply other⟩

/-- `TensorChain::scalar_multiply`:
`self.tensor.and_then(|t| t.scalar_multiply(scalar))`. -/
def scalar_multiply (c : TensorChain) (scalar : ℚ) : TensorChain :=
  ⟨c.tensor >>= fun t => t.scalar_multiply scalar⟩

/-- `TensorChain::finish`: returns the held result. -/
def finish (c : TensorChain) : RustResult Tensor := c.tensor

end TensorChain

/-! ## Loop lemmas

Generic facts about the `foldlM`-over-`List.range` loops the CPU backend is
built from: the inner product-accumulation loop and write loops that store one
value per owned output position. -/

/-- Index arithmetic: a row-major position `i*n + j` with `i < m`, `j < n`
lies below `m*n`. -/
theorem rowIdx_lt {i j m n : ℕ} (hi : i < m) (hj : j < n) :
    i * n + j < m * n :=
  calc i * n + j < i * n + n := by omega
  _ = (i + 1) * n := by ring
  _ ≤ m * n := Nat.mul_le_mul_right n hi

/-- Index arithmetic: row-major positions determine row and column. -/
theorem rowIdx_inj {n i j i' j' : ℕ} (hj : j < n) (hj' : j' < n)
    (h : i * n + j = i' * n + j') : i = i' ∧ j = j' := by
  rcases Nat.lt_trichotomy i i' with hlt | heq | hgt
  · have h2 : i * n + j < i' * n + j' :=
      Nat.lt_of_lt_of_le (rowIdx_lt hlt hj) (Nat.le_add_right _ _)
    omega
  · subst heq; exact ⟨rfl, by omega⟩
  · have h2 : i' * n + j' < i * n + j :=
      Nat.lt_of_lt_of_le (rowIdx_lt hgt hj') (Nat.le_add_right _ _)
    omega

/-- The product-accumulation loop: when every read is in bounds it returns
`ok` of the starting accumulator plus the inner-product sum. -/
theorem foldlM_range_sum (a b : List ℚ) (f g : ℕ → ℕ) (t : ℕ)
    (ha : ∀ kk, kk < t → f kk < a.length)
    (hb : ∀ kk, kk < t → g kk < b.length) :
    ∀ s : ℚ, (List.range t).foldlM (fun s kk => do
        let x ← idx a (f kk)
        let y ← idx b (g kk)
        pure (s + x * y)) s =
      .ok (s + ∑ kk in Finset.range t, a.getD (f kk) 0 * b.getD (g kk) 0) := by
  induction t with
  | zero => intro s; simp [List.foldlM]
  | succ t ih =>
    intro s
    rw [List.range_succ, List.foldlM_append,
      ih (fun kk h => ha kk (Nat.lt_succ_of_lt h))
        (fun kk h => hb kk (Nat.lt_succ_of_lt h))]
    rw [RustResult.bind_ok]
    simp only [List.foldlM_cons, List.foldlM_nil,
      idx_of_lt (ha t (Nat.lt_succ_self t)), idx_of_lt (hb t (Nat.lt_succ_self t)),
      RustResult.bind_ok, RustResult.pure_eq_ok, Finset.sum_range_succ]
    rw [add_assoc]

/-- A write loop over `List.range t`: if each iteration `i` succeeds, keeps
the length, rewrites exactly the positions it owns to `f i _`, and later
iterations never own an earlier iteration's positions, then the whole loop
succeeds with every owned position holding its owner's value. -/
theorem foldlM_range_write (L : ℕ) (body : List ℚ → ℕ → RustResult (List ℚ))
    (own : ℕ → ℕ → Prop) (f : ℕ → ℕ → ℚ) :
    ∀ t : ℕ,
    (∀ i i' q, i < i' → i' < t → own i q → ¬ own i' q) →
    (∀ i, i < t → ∀ c : List ℚ, c.length = L →
      ∃ c', body c i = .ok c' ∧ c'.length = L ∧
        (∀ q, ¬ own i q → c'.get? q = c.get? q) ∧
        (∀ q, own i q → c'.get? q = some (f i q))) →
    ∀ c : List ℚ, c.length = L →
    ∃ c', (List.range t).foldlM body c = .ok c' ∧ c'.length = L ∧
      (∀ q, (∀ i, i < t → ¬ own i q) → c'.get? q = c.get? q) ∧
      (∀ i, i < t → ∀ q, own i q → c'.get? q = some (f i q)) := by
  intro t
  induction t with
  | zero =>
    intro _ _ c hc
    exact ⟨c, by simp [List.foldlM], hc, fun q _ => rfl,
      fun i h => absurd h (Nat.not_lt_zero i)⟩
  | succ t ih =>
    intro hdisj hbody c hc
    obtain ⟨c₁, h₁eq, h₁len, h₁pres, h₁own⟩ :=
      ih (fun i i' q hii' hi' => hdisj i i' q hii' (Nat.lt_succ_of_lt hi'))
        (fun i hi => hbody i (Nat.lt_succ_of_lt hi)) c hc
    obtain ⟨c₂, hbeq, hblen, hbpres, hbown⟩ :=
      hbody t (Nat.lt_succ_self t) c₁ h₁len
    refine ⟨c₂, ?_, hblen, ?_, ?_⟩
    · rw [List.range_succ, List.foldlM_append, h₁eq, RustResult.bind_ok]
      simp [List.foldlM_cons, List.foldlM_nil, hbeq]
    · intro q hq
      rw [hbpres q (hq t (Nat.lt_succ_self t)),
        h₁pres q (fun i hi => hq i (Nat.lt_succ_of_lt hi))]
    · intro i hi q hq
      rcases Nat.lt_succ_iff_lt_or_eq.mp hi with hlt | rfl
      · rw [hbpres q (hdisj i t q hlt (Nat.lt_succ_self t) hq),
          h₁own i hlt q hq]
      · exact hbown q hq

/-- The two-level write loop shared by all CPU matmul variants: for rows
`i < m` and columns `j < n` it accumulates the `k`-length inner product of
`a`-reads at `F i kk` and `b`-reads at `G kk j` and stores it at position
`P i j`. When all reads and writes are in bounds and `P` is injective, the
loop succeeds and every `P i j` holds its inner product. -/
theorem matmulLoop_spec (a b : List ℚ) (F G P : ℕ → ℕ → ℕ) (m n k L : ℕ)
    (hF : ∀ i kk, i < m → kk < k → F i kk < a.length)
    (hG : ∀ kk j, kk < k → j < n → G kk j < b.length)
    (hP : ∀ i j, i < m → j < n → P i j < L)
    (hPinj : ∀ i j i' j', i < m → j < n → i' < m → j' < n →
      P i j = P i' j' → i = i' ∧ j = j')
    (c : List ℚ) (hc : c.length = L) :
    ∃ c', ((List.range m).foldlM (fun c i =>
        (List.range n).foldlM (fun c j => do
          let sum ← (List.range k).foldlM (fun s kk => do
            let x ← idx a (F i kk)
            let y ← idx b (G kk j)
            pure (s + x * y)) (0 : ℚ)
          setIdx c (P i j) sum) c) c) = .ok c' ∧
      c'.length = L ∧
      (∀ q, (∀ i j, i < m → j < n → q ≠ P i j) → c'.get? q = c.get? q) ∧
      (∀ i j, i < m → j < n → c'.get? (P i j) =
        some (∑ kk in Finset.range k,
          a.getD (F i kk) 0 * b.getD (G kk j) 0)) := by
  classical
  let S : ℕ → ℕ → ℚ := fun i j =>
    ∑ kk in Finset.range k, a.getD (F i kk) 0 * b.getD (G kk j) 0
  let own : ℕ → ℕ → Prop := fun i q => ∃ j, j < n ∧ q = P i j
  let f : ℕ → ℕ → ℚ := fun i q =>
    if h : ∃ j, j < n ∧ q = P i j then S i h.choose else 0
  have hfval : ∀ i j, i < m → j < n → f i (P i j) = S i j := by
    intro i j hi hj
    have hex : ∃ j', j' < n ∧ P i j = P i j' := ⟨j, hj, rfl⟩
    show (if h : ∃ j', j' < n ∧ P i j = P i j' then S i h.choose else 0) = S i j
    rw [dif_pos hex]
    obtain ⟨hcn, hceq⟩ := hex.choose_spec
    obtain ⟨-, hj2⟩ := hPinj i j i hex.choose hi hj hi hcn hceq
    exact congrArg (S i) hj2.symm
  have hinner : ∀ i, i < m → ∀ c0 : List ℚ, c0.length = L →
      ∃ c', ((List.range n).foldlM (fun c j => do
          let sum ← (List.range k).foldlM (fun s kk => do
            let x ← idx a (F i kk)
            let y ← idx b (G kk j)
            pure (s + x * y)) (0 : ℚ)
          setIdx c (P i j) sum) c0) = .ok c' ∧ c'.length = L ∧
        (∀ q, ¬ own i q → c'.get? q = c0.get? q) ∧
        (∀ q, own i q → c'.get? q = some (f i q)) := by
    intro i hi c0 hc0
    have hstep : ∀ j, j < n → ∀ c1 : List ℚ, c1.length = L →
        ∃ c', (do
            let sum ← (List.range k).foldlM (fun s kk => do
              let x ← idx a (F i kk)
              let y ← idx b (G kk j)
              pure (s + x * y)) (0 : ℚ)
            setIdx c1 (P i j) sum) = .ok c' ∧ c'.length = L ∧
          (∀ q, ¬ (q = P i j) → c'.get? q = c1.get? q) ∧
          (∀ q, q = P i j → c'.get? q = some ((fun (j : ℕ) (_ : ℕ) => S i j) j q)) := by
      intro j hj c1 hc1
      have hsum := foldlM_range_sum a b (F i) (fun kk => G kk j) k
        (fun kk hkk => hF i kk hi hkk) (fun kk hkk => hG kk j hkk hj) 0
      rw [hsum, RustResult.bind_ok,
        setIdx_of_lt _ (by rw [hc1]; exact hP i j hi hj)]
      refine ⟨_, rfl, by simp [hc1], ?_, ?_⟩
      · intro q hq
        exact List.get?_set_ne _ _ (fun h => hq h.symm)
      · intro q hq
        subst hq
        rw [List.get?_set_eq_of_lt _ (by rw [hc1]; exact hP i j hi hj)]
        simp [S]
    obtain ⟨c', h1, h2, h3, h4⟩ := foldlM_range_write L _
      (fun j q => q = P i j) (fun (j : ℕ) (_ : ℕ) => S i j) n
      (fun j j' q hjj' hj' hq hq' => by
        obtain ⟨-, h⟩ := hPinj i j i j' hi (Nat.lt_trans hjj' hj') hi hj'
          (hq ▸ hq')
        omega)
      hstep c0 hc0
    refine ⟨c', h1, h2, ?_, ?_⟩
    · intro q hq
      refine h3 q (fun j hj hqe => hq ⟨j, hj, hqe⟩)
    · rintro q ⟨j, hj, rfl⟩
      rw [h4 j hj _ rfl, hfval i j hi hj]
  obtain ⟨c', h1, h2, h3, h4⟩ := foldlM_range_write L _ own f m
    (fun i i' q hii' hi' hq hq' => by
      obtain ⟨j, hj, rfl⟩ := hq
      obtain ⟨j', hj', heq⟩ := hq'
      obtain ⟨hie, -⟩ := hPinj i j i' j' (Nat.lt_trans hii' hi') hj hi' hj' heq
      omega)
    hinner c hc
  refine ⟨c', h1, h2, ?_, ?_⟩
  · intro q hq
    exact h3 q (fun i hi ⟨j, hj, hqe⟩ => hq i j hi hj hqe)
  · intro i j hi hj
    rw [h4 i hi (P i j) ⟨j, hj, rfl⟩, hfval i j hi hj]

/-- Quotient of a row-major position. -/
theorem rowDiv {n i j : ℕ} (hj : j < n) : (i * n + j) / n = i := by
  have hn : 0 < n := Nat.lt_of_le_of_lt (Nat.zero_le j) hj
  rw [Nat.mul_comm i n, Nat.mul_add_div hn, Nat.div_eq_of_lt hj, Nat.add_zero]

/-- Remainder of a row-major position. -/
theorem rowMod {n i j : ℕ} (hj : j < n) : (i * n + j) % n = j := by
  rw [Nat.mul_comm i n, Nat.mul_add_mod, Nat.mod_eq_of_lt hj]

/-- A batched row-major position `batch*m*n + (i*n + j)` lies below
`bs*m*n`. -/
theorem batchIdx_lt {bs m n batch i j : ℕ} (hb : batch < bs) (hi : i < m)
    (hj : j < n) : batch * m * n + (i * n + j) < bs * m * n := by
  have h2 : batch * (m * n) + (i * n + j) < bs * (m * n) :=
    rowIdx_lt hb (rowIdx_lt hi hj)
  simpa [Nat.mul_assoc] using h2

/-- Batched row-major positions determine batch, row and column. -/
theorem batchIdx_inj {m n batch i j batch' i' j' : ℕ}
    (hi : i < m) (hj : j < n) (hi' : i' < m) (hj' : j' < n)
    (h : batch * m * n + (i * n + j) = batch' * m * n + (i' * n + j')) :
    batch = batch' ∧ i = i' ∧ j = j' := by
  have hr : i * n + j < m * n := rowIdx_lt hi hj
  have hr' : i' * n + j' < m * n := rowIdx_lt hi' hj'
  have h2 : batch * (m * n) + (i * n + j) =
      batch' * (m * n) + (i' * n + j') := by
    rw [← Nat.mul_assoc, ← Nat.mul_assoc]; exact h
  obtain ⟨hbb, hrr⟩ := rowIdx_inj hr hr' h2
  obtain ⟨hii, hjj⟩ := rowIdx_inj hj hj' hrr
  exact ⟨hbb, hii, hjj⟩

/-- `CPUBackend::matmul` under the preconditions that both input buffers are
large enough: every access is in bounds, the result is `Ok`, has length
`m*n`, and holds the naive triple-loop inner products. -/
theorem CPUBackend.matmul_spec (a b : List ℚ) (m n k : ℕ)
    (ha : m * k ≤ a.length) (hb : k * n ≤ b.length) :
    ∃ c, CPUBackend.matmul a b m n k = .ok c ∧ c.length = m * n ∧
      ∀ i j, i < m → j < n → c.get? (i * n + j) =
        some (∑ kk in Finset.range k,
          a.getD (i * k + kk) 0 * b.getD (kk * n + j) 0) := by
  obtain ⟨c', h1, h2, -, h4⟩ := matmulLoop_spec a b
    (fun i kk => i * k + kk) (fun kk j => kk * n + j) (fun i j => i * n + j)
    m n k (m * n)
    (fun i kk hi hkk => Nat.lt_of_lt_of_le (rowIdx_lt hi hkk) ha)
    (fun kk j hkk hj => Nat.lt_of_lt_of_le (rowIdx_lt hkk hj) hb)
    (fun i j hi hj => rowIdx_lt hi hj)
    (fun i j i' j' _ hj _ hj' h => rowIdx_inj hj hj' h)
    (List.replicate (m * n) 0) (List.length_replicate _ _)
  exact ⟨c', h1, h2, fun i j hi hj => h4 i j hi hj⟩

/-- `CPUBackend::matmul_batched` under the preconditions that both input
buffers are large enough: every access is in bounds, the result is `Ok`, has
length `bs*m*n`, and each batch holds its triple-loop inner products at the
batch offsets of the source. -/
theorem CPUBackend.matmul_batched_spec (a b : List ℚ) (bs m n k : ℕ)
    (ha : bs * m * k ≤ a.length) (hb : bs * k * n ≤ b.length) :
    ∃ c, CPUBackend.matmul_batched a b bs m n k = .ok c ∧
      c.length = bs * m * n ∧
      ∀ batch i j, batch < bs → i < m → j < n →
        c.get? (batch * m * n + (i * n + j)) =
          some (∑ kk in Finset.range k,
            a.getD (batch * m * k + (i * k + kk)) 0 *
            b.getD (batch * k * n + (kk * n + j)) 0) := by
  classical
  let Sb : ℕ → ℕ → ℕ → ℚ := fun batch i j => ∑ kk in Finset.range k,
    a.getD (batch * m * k + (i * k + kk)) 0 *
    b.getD (batch * k * n + (kk * n + j)) 0
  let own : ℕ → ℕ → Prop := fun batch q =>
    ∃ p : ℕ × ℕ, p.1 < m ∧ p.2 < n ∧ q = batch * m * n + (p.1 * n + p.2)
  let f : ℕ → ℕ → ℚ := fun batch q =>
    Sb batch ((q - batch * m * n) / n) ((q - batch * m * n) % n)
  have hfval : ∀ batch i j, i < m → j < n →
      f batch (batch * m * n + (i * n + j)) = Sb batch i j := by
    intro batch i j hi hj
    show Sb batch _ _ = Sb batch i j
    rw [Nat.add_sub_cancel_left, rowDiv hj, rowMod hj]
  have hbatchbody : ∀ batch, batch < bs →
      ∀ c0 : List ℚ, c0.length = bs * m * n →
      ∃ c', ((List.range m).foldlM (fun c i =>
          (List.range n).foldlM (fun c j => do
            let sum ← (List.range k).foldlM (fun s kk => do
              let x ← idx a (batch * m * k + (i * k + kk))
              let y ← idx b (batch * k * n + (kk * n + j))
              pure (s + x * y)) (0 : ℚ)
            setIdx c (batch * m * n + (i * n + j)) sum) c) c0) = .ok c' ∧
        c'.length = bs * m * n ∧
        (∀ q, ¬ own batch q → c'.get? q = c0.get? q) ∧
        (∀ q, own batch q → c'.get? q = some (f batch q)) := by
    intro batch hbatch c0 hc0
    obtain ⟨c', h1, h2, h3, h4⟩ := matmulLoop_spec a b
      (fun i kk => batch * m * k + (i * k + kk))
      (fun kk j => batch * k * n + (kk * n + j))
      (fun i j => batch * m * n + (i * n + j)) m n k (bs * m * n)
      (fun i kk hi hkk => Nat.lt_of_lt_of_le (batchIdx_lt hbatch hi hkk) ha)
      (fun kk j hkk hj => Nat.lt_of_lt_of_le (batchIdx_lt hbatch hkk hj) hb)
      (fun i j hi hj => batchIdx_lt hbatch hi hj)
      (fun i j i' j' hi hj hi' hj' h =>
        ⟨(batchIdx_inj hi hj hi' hj' h).2.1, (batchIdx_inj hi hj hi' hj' h).2.2⟩)
      c0 hc0
    refine ⟨c', h1, h2, ?_, ?_⟩
    · intro q hq
      exact h3 q (fun i j hi hj hqe => hq ⟨(i, j), hi, hj, hqe⟩)
    · rintro q ⟨⟨i, j⟩, hi, hj, rfl⟩
      rw [h4 i j hi hj, hfval batch i j hi hj]
  obtain ⟨c', h1, h2, -, h4⟩ := foldlM_range_write (bs * m * n) _ own f bs
    (fun batch batch' q hbb hb' hq hq' => by
      obtain ⟨⟨i, j⟩, hi, hj, rfl⟩ := hq
      obtain ⟨⟨i', j'⟩, hi', hj', heq⟩ := hq'
      obtain ⟨hbe, -, -⟩ := batchIdx_inj hi hj hi' hj' heq
      omega)
    hbatchbody (List.replicate (bs * m * n) 0) (List.length_replicate _ _)
  refine ⟨c', h1, h2, ?_⟩
  intro batch i j hbatch hi hj
  rw [h4 batch hbatch _ ⟨(i, j), hi, hj, rfl⟩, hfval batch i j hi hj]

/-- The spec-modelled `CPUBackend::matmul_transposed` under in-bounds
preconditions: the result is `Ok` of length `m*n` with the flag-adjusted
inner products. -/
theorem CPUBackend.matmul_transposed_spec (a b : List ℚ) (m n k : ℕ)
    (ta tb : Bool)
    (ha : ∀ i kk, i < m → kk < k →
      (if ta then kk * m + i else i * k + kk) < a.length)
    (hb : ∀ kk j, kk < k → j < n →
      (if tb then j * k + kk else kk * n + j) < b.length) :
    ∃ c, CPUBackend.matmul_transposed a b m n k ta tb = .ok c ∧
      c.length = m * n ∧
      ∀ i j, i < m → j < n → c.get? (i * n + j) =
        some (∑ kk in Finset.range k,
          a.getD (if ta then kk * m + i else i * k + kk) 0 *
          b.getD (if tb then j * k + kk else kk * n + j) 0) := by
  obtain ⟨c', h1, h2, -, h4⟩ := matmulLoop_spec a b
    (fun i kk => if ta then kk * m + i else i * k + kk)
    (fun kk j => if tb then j * k + kk else kk * n + j)
    (fun i j => i * n + j) m n k (m * n)
    ha hb
    (fun i j hi hj => rowIdx_lt hi hj)
    (fun i j i' j' _ hj _ hj' h => rowIdx_inj hj hj' h)
    (List.replicate (m * n) 0) (List.length_replicate _ _)
  exact ⟨c', h1, h2, fun i j hi hj => h4 i j hi hj⟩

/-- The spec-modelled `CPUBackend::matmul_transposed_batched` under in-bounds
preconditions: the result is `Ok` of length `bs*m*n`. -/
theorem CPUBackend.matmul_transposed_batched_spec (a b : List ℚ)
    (bs m n k : ℕ) (ta tb : Bool)
    (ha : ∀ batch i kk, batch < bs → i < m → kk < k →
      batch * m * k + (if ta then kk * m + i else i * k + kk) < a.length)
    (hb : ∀ batch kk j, batch < bs → kk < k → j < n →
      batch * k * n + (if tb then j * k + kk else kk * n + j) < b.length) :
    ∃ c, CPUBackend.matmul_transposed_batched a b bs m n k ta tb = .ok c ∧
      c.length = bs * m * n := by
  classical
  let Sb : ℕ → ℕ → ℕ → ℚ := fun batch i j => ∑ kk in Finset.range k,
    a.getD (batch * m * k + (if ta then kk * m + i else i * k + kk)) 0 *
    b.getD (batch * k * n + (if tb then j * k + kk else kk * n + j)) 0
  let own : ℕ → ℕ → Prop := fun batch q =>
    ∃ p : ℕ × ℕ, p.1 < m ∧ p.2 < n ∧ q = batch * m * n + (p.1 * n + p.2)
  let f : ℕ → ℕ → ℚ := fun batch q =>
    Sb batch ((q - batch * m * n) / n) ((q - batch * m * n) % n)
  have hfval : ∀ batch i j, i < m → j < n →
      f batch (batch * m * n + (i * n + j)) = Sb batch i j := by
    intro batch i j hi hj
    show Sb batch _ _ = Sb batch i j
    rw [Nat.add_sub_cancel_left, rowDiv hj, rowMod hj]
  have hbatchbody : ∀ batch, batch < bs →
      ∀ c0 : List ℚ, c0.length = bs * m * n →
      ∃ c', ((List.range m).foldlM (fun c i =>
          (List.range n).foldlM (fun c j => do
            let sum ← (List.range k).foldlM (fun s kk => do
              let x ← idx a
                (batch * m * k + (if ta then kk * m + i else i * k + kk))
              let y ← idx b
                (batch * k * n + (if tb then j * k + kk else kk * n + j))
              pure (s + x * y)) (0 : ℚ)
            setIdx c (batch * m * n + (i * n + j)) sum) c) c0) = .ok c' ∧
        c'.length = bs * m * n ∧
        (∀ q, ¬ own batch q → c'.get? q = c0.get? q) ∧
        (∀ q, own batch q → c'.get? q = some (f batch q)) := by
    intro batch hbatch c0 hc0
    obtain ⟨c', h1, h2, h3, h4⟩ := matmulLoop_spec a b
      (fun i kk => batch * m * k + (if ta then kk * m + i else i * k + kk))
      (fun kk j => batch * k * n + (if tb then j * k + kk else kk * n + j))
      (fun i j => batch * m * n + (i * n + j)) m n k (bs * m * n)
      (fun i kk hi hkk => ha batch i kk hbatch hi hkk)
      (fun kk j hkk hj => hb batch kk j hbatch hkk hj)
      (fun i j hi hj => batchIdx_lt hbatch hi hj)
      (fun i j i' j' hi hj hi' hj' h =>
        ⟨(batchIdx_inj hi hj hi' hj' h).2.1, (batchIdx_inj hi hj hi' hj' h).2.2⟩)
      c0 hc0
    refine ⟨c', h1, h2, ?_, ?_⟩
    · intro q hq
      exact h3 q (fun i j hi hj hqe => hq ⟨(i, j), hi, hj, hqe⟩)
    · rintro q ⟨⟨i, j⟩, hi, hj, rfl⟩
      rw [h4 i j hi hj, hfval batch i j hi hj]
  obtain ⟨c', h1, h2, -, -⟩ := foldlM_range_write (bs * m * n) _ own f bs
    (fun batch batch' q hbb hb' hq hq' => by
      obtain ⟨⟨i, j⟩, hi, hj, rfl⟩ := hq
      obtain ⟨⟨i', j'⟩, hi', hj', heq⟩ := hq'
      obtain ⟨hbe, -, -⟩ := batchIdx_inj hi hj hi' hj' heq
      omega)
    hbatchbody (List.replicate (bs * m * n) 0) (List.length_replicate _ _)
  exact ⟨c', h1, h2⟩

/-! ## Shape helper lemmas -/

/-- Inverting `matrix_dims`: a defined result forces rank 2 or 3 and fixes
the dimension list. -/
theorem Shape.matrix_dims_cases {s : Shape} {p : ℕ × ℕ}
    (h : s.matrix_dims = some p) :
    s.dims = [p.1, p.2] ∨ ∃ x, s.dims = [x, p.1, p.2] := by
  rcases s with ⟨dims⟩
  rcases dims with - | ⟨x, - | ⟨y, - | ⟨z, - | ⟨w, rest⟩⟩⟩⟩ <;>
    simp [Shape.matrix_dims] at h ⊢
  · exact ⟨congrArg Prod.fst h, congrArg Prod.snd h⟩
  · exact ⟨congrArg Prod.fst h, congrArg Prod.snd h⟩

/-- `batch_size` of a rank-2 shape is `none`. -/
theorem Shape.batch_size_eq_none {s : Shape} {x y : ℕ} (h : s.dims = [x, y]) :
    s.batch_size = none := by
  simp [Shape.batch_size, h]

/-- `batch_size` of a rank-3 shape is the leading dimension. -/
theorem Shape.batch_size_eq_some {s : Shape} {x y z : ℕ}
    (h : s.dims = [x, y, z]) : s.batch_size = some x := by
  simp [Shape.batch_size, h]

/-- `size` of a rank-2 shape. -/
theorem Shape.size_eq_two {s : Shape} {x y : ℕ} (h : s.dims = [x, y]) :
    s.size = x * y := by
  simp [Shape.size, h]

/-- `size` of a rank-3 shape. -/
theorem Shape.size_eq_three {s : Shape} {x y z : ℕ} (h : s.dims = [x, y, z]) :
    s.size = x * y * z := by
  simp [Shape.size, h, Nat.mul_assoc]

/-! ## Tensor-level matmul characterization -/

theorem Tensor.matmul_err_inner {a b : Tensor} {m k1 k2 n : ℕ}
    (hma : a.shape.matrix_dims = some (m, k1))
    (hmb : b.shape.matrix_dims = some (k2, n)) (hk : k1 ≠ k2) :
    a.matmul b = .err .ShapeMismatch := by
  have hla : ¬ (a.shape.dims.length < 2 ∨ b.shape.dims.length < 2) := by
    rcases Shape.matrix_dims_cases hma with h | ⟨x, h⟩ <;>
    rcases Shape.matrix_dims_cases hmb with h' | ⟨x', h'⟩ <;>
    simp [h, h']
  unfold Tensor.matmul
  rw [if_neg hla, hma, hmb]
  simp [hk]

theorem Tensor.matmul_err_batch {a b : Tensor} {m k n b1 b2 : ℕ}
    (hma : a.shape.matrix_dims = some (m, k))
    (hmb : b.shape.matrix_dims = some (k, n))
    (hb1 : a.shape.batch_size = some b1) (hb2 : b.shape.batch_size = some b2)
    (hbb : b1 ≠ b2) : a.matmul b = .err .ShapeMismatch := by
  have hla : ¬ (a.shape.dims.length < 2 ∨ b.shape.dims.length < 2) := by
    rcases Shape.matrix_dims_cases hma with h | ⟨x, h⟩ <;>
    rcases Shape.matrix_dims_cases hmb with h' | ⟨x', h'⟩ <;>
    simp [h, h']
  unfold Tensor.matmul
  rw [if_neg hla, hma, hmb, hb1, hb2]
  simp [hbb]

theorem Tensor.matmul_err_mixed_left {a b : Tensor} {m k n b2 : ℕ}
    (hma : a.shape.matrix_dims = some (m, k))
    (hmb : b.shape.matrix_dims = some (k, n))
    (hb1 : a.shape.batch_size = none) (hb2 : b.shape.batch_size = some b2) :
    a.matmul b = .err .ShapeMismatch := by
  have hla : ¬ (a.shape.dims.length < 2 ∨ b.shape.dims.length < 2) := by
    rcases Shape.matrix_dims_cases hma with h | ⟨x, h⟩ <;>
    rcases Shape.matrix_dims_cases hmb with h' | ⟨x', h'⟩ <;>
    simp [h, h']
  unfold Tensor.matmul
  rw [if_neg hla, hma, hmb, hb1, hb2]
  simp

theorem Tensor.matmul_err_mixed_right {a b : Tensor} {m k n b1 : ℕ}
    (hma : a.shape.matrix_dims = some (m, k))
    (hmb : b.shape.matrix_dims = some (k, n))
    (hb1 : a.shape.batch_size = some b1) (hb2 : b.shape.batch_size = none) :
    a.matmul b = .err .ShapeMismatch := by
  have hla : ¬ (a.shape.dims.length < 2 ∨ b.shape.dims.length < 2) := by
    rcases Shape.matrix_dims_cases hma with h | ⟨x, h⟩ <;>
    rcases Shape.matrix_dims_cases hmb with h' | ⟨x', h'⟩ <;>
    simp [h, h']
  unfold Tensor.matmul
  rw [if_neg hla, hma, hmb, hb1, hb2]
  simp

theorem Tensor.matmul_ok_plain {a b : Tensor} {m k n : ℕ}
    (hwa : a.WF) (hwb : b.WF)
    (hda : a.shape.dims = [m, k]) (hdb : b.shape.dims = [k, n]) :
    ∃ t, a.matmul b = .ok t ∧ t.shape = Shape.new [m, n] ∧
      t.buffer.length = m * n ∧ t.WF ∧
      ∀ i j, i < m → j < n → t.buffer.get? (i * n + j) =
        some (∑ kk in Finset.range k,
          a.buffer.getD (i * k + kk) 0 * b.buffer.getD (kk * n + j) 0) := by
  have hma : a.shape.matrix_dims = some (m, k) := by
    simp [Shape.matrix_dims, hda]
  have hmb : b.shape.matrix_dims = some (k, n) := by
    simp [Shape.matrix_dims, hdb]
  have hba := Shape.batch_size_eq_none hda
  have hbb := Shape.batch_size_eq_none hdb
  have hla : ¬ (a.shape.dims.length < 2 ∨ b.shape.dims.length < 2) := by
    simp [hda, hdb]
  obtain ⟨c, hc, hclen, hcval⟩ := CPUBackend.matmul_spec a.buffer b.buffer m n k
    (le_of_eq (hwa.trans (Shape.size_eq_two hda)).symm)
    (le_of_eq (hwb.trans (Shape.size_eq_two hdb)).symm)
  refine ⟨⟨c, Shape.new [m, n]⟩, ?_, rfl, hclen, ?_, hcval⟩
  · unfold Tensor.matmul
    rw [if_neg hla, hma, hmb, hba, hbb]
    simp [hc]
  · simp [Tensor.WF, Shape.size, Shape.new, hclen]

theorem Tensor.matmul_ok_batched {a b : Tensor} {bz m k n : ℕ}
    (hwa : a.WF) (hwb : b.WF)
    (hda : a.shape.dims = [bz, m, k]) (hdb : b.shape.dims = [bz, k, n]) :
    ∃ t, a.matmul b = .ok t ∧ t.shape = Shape.new_batched bz m n ∧
      t.buffer.length = bz * m * n ∧ t.WF ∧
      ∀ batch i j, batch < bz → i < m → j < n →
        t.buffer.get? (batch * m * n + (i * n + j)) =
          some (∑ kk in Finset.range k,
            a.buffer.getD (batch * m * k + (i * k + kk)) 0 *
            b.buffer.getD (batch * k * n + (kk * n + j)) 0) := by
  have hma : a.shape.matrix_dims = some (m, k) := by
    simp [Shape.matrix_dims, hda]
  have hmb : b.shape.matrix_dims = some (k, n) := by
    simp [Shape.matrix_dims, hdb]
  have hba := Shape.batch_size_eq_some hda
  have hbb := Shape.batch_size_eq_some hdb
  have hla : ¬ (a.shape.dims.length < 2 ∨ b.shape.dims.length < 2) := by
    simp [hda, hdb]
  obtain ⟨c, hc, hclen, hcval⟩ := CPUBackend.matmul_batched_spec
    a.buffer b.buffer bz m n k
    (le_of_eq (hwa.trans (Shape.size_eq_three hda)).symm)
    (le_of_eq (hwb.trans (Shape.size_eq_three hdb)).symm)
  refine ⟨⟨c, Shape.new_batched bz m n⟩, ?_, rfl, hclen, ?_, hcval⟩
  · unfold Tensor.matmul
    rw [if_neg hla, hma, hmb, hba, hbb]
    simp [hc]
  · simp [Tensor.WF, Shape.size, Shape.new_batched, hclen, Nat.mul_assoc]

/-! ## Claim theorems -/

/-- C1: CPU matmul computes the row-major naive triple-loop result, and the
concrete 2x3 by 3x2 scenario yields [58,64,139,154]. -/
theorem C1_cpu_matmul_naive :
    (∀ (a b : List ℚ) (m n k : ℕ), a.length = m * k → b.length = k * n →
      ∃ c, CPUBackend.matmul a b m n k = .ok c ∧ c.length = m * n ∧
        ∀ i j, i < m → j < n → c.get? (i * n + j) =
          some (∑ kk in Finset.range k,
            a.getD (i * k + kk) 0 * b.getD (kk * n + j) 0)) ∧
    (Tensor.new (Shape.new [2, 3]) [1, 2, 3, 4, 5, 6] =
        .ok ⟨[1, 2, 3, 4, 5, 6], Shape.new [2, 3]⟩ ∧
      Tensor.new (Shape.new [3, 2]) [7, 8, 9, 10, 11, 12] =
        .ok ⟨[7, 8, 9, 10, 11, 12], Shape.new [3, 2]⟩ ∧
      ∃ t, (Tensor.mk [1, 2, 3, 4, 5, 6] (Shape.new [2, 3])).matmul
          (Tensor.mk [7, 8, 9, 10, 11, 12] (Shape.new [3, 2])) = .ok t ∧
        t.data = .ok [58, 64, 139, 154]) := by
  constructor
  · intro a b m n k ha hb
    exact CPUBackend.matmul_spec a b m n k (le_of_eq ha.symm) (le_of_eq hb.symm)
  · refine ⟨by decide, by decide,
      ⟨⟨[58, 64, 139, 154], Shape.new [2, 2]⟩, ?_, rfl⟩⟩
    norm_num [Tensor.matmul, Shape.matrix_dims, Shape.batch_size, Shape.new,
      CPUBackend.matmul, CPUBackend.matmulSumLoop,
      show List.range 2 = [0, 1] from rfl, show List.range 3 = [0, 1, 2] from rfl,
      List.foldlM_cons, List.foldlM_nil, idx, setIdx, List.set]

theorem C1_witness :
    ∃ c, CPUBackend.matmul [1, 2, 3, 4, 5, 6] [7, 8, 9, 10, 11, 12] 2 2 3 =
        .ok c ∧ c.length = 2 * 2 ∧
      ∀ i j, i < 2 → j < 2 → c.get? (i * 2 + j) =
        some (∑ kk in Finset.range 3,
          ([1, 2, 3, 4, 5, 6] : List ℚ).getD (i * 3 + kk) 0 *
          ([7, 8, 9, 10, 11, 12] : List ℚ).getD (kk * 2 + j) 0) :=
  C1_cpu_matmul_naive.1 [1, 2, 3, 4, 5, 6] [7, 8, 9, 10, 11, 12] 2 2 3
    (by decide) (by decide)

/-- C10: under the length preconditions every access of CPU matmul and
matmul_batched is in bounds and the result is always Ok. -/
theorem C10_cpu_matmul_safety (a b : List ℚ) (m n k bs : ℕ) :
    (m * k ≤ a.length → k * n ≤ b.length →
      ∃ c, CPUBackend.matmul a b m n k = .ok c) ∧
    (bs * m * k ≤ a.length → bs * k * n ≤ b.length →
      ∃ c, CPUBackend.matmul_batched a b bs m n k = .ok c) := by
  constructor
  · intro ha hb
    obtain ⟨c, hc, -, -⟩ := CPUBackend.matmul_spec a b m n k ha hb
    exact ⟨c, hc⟩
  · intro ha hb
    obtain ⟨c, hc, -, -⟩ := CPUBackend.matmul_batched_spec a b bs m n k ha hb
    exact ⟨c, hc⟩

theorem C10_witness :
    (∃ c, CPUBackend.matmul [1, 2] [3, 4] 1 1 2 = .ok c) ∧
    (∃ c, CPUBackend.matmul_batched [1, 2] [3, 4] 1 1 1 2 = .ok c) :=
  ⟨(C10_cpu_matmul_safety [1, 2] [3, 4] 1 1 2 1).1 (by decide) (by decide),
   (C10_cpu_matmul_safety [1, 2] [3, 4] 1 1 2 1).2 (by decide) (by decide)⟩

/-- C3 counterexample: the CPU backend performs no length check on provided
data, so `allocate(ctx, 2, Some([1,2,3]))` succeeds instead of failing with
`BufferError`. -/
theorem C3_counterexample :
    ([1, 2, 3] : List ℚ).length ≠ 2 ∧
    CPUBackend.allocate_buffer 2 (some [1, 2, 3]) = .ok [1, 2, 3] ∧
    CPUBackend.allocate_buffer 2 (some [1, 2, 3]) ≠ .err .BufferError := by
  exact ⟨by decide, rfl, by decide⟩

/-- C3 amended: the Metal backend fails with `BufferError` iff the provided
data length differs from `size`; the CPU backend performs no check and
returns the data as the buffer; with no data both backends return a
zero-filled buffer of `size` elements. -/
theorem C3_allocate_amended (size : ℕ) (data : List ℚ) :
    (MetalBackend.allocate_buffer size (some data) = .err .BufferError ↔
      data.length ≠ size) ∧
    (data.length = size →
      MetalBackend.allocate_buffer size (some data) = .ok data) ∧
    (CPUBackend.allocate_buffer size (some data) = .ok data) ∧
    (MetalBackend.allocate_buffer size none = .ok (List.replicate size 0)) ∧
    (CPUBackend.allocate_buffer size none = .ok (List.replicate size 0)) := by
  refine ⟨?_, ?_, rfl, rfl, rfl⟩
  · unfold MetalBackend.allocate_buffer
    by_cases h : data.length = size <;> simp [h]
  · intro h
    simp [MetalBackend.allocate_buffer, h]

theorem C3_witness :
    MetalBackend.allocate_buffer 2 (some [1, 2]) = .ok [1, 2] :=
  (C3_allocate_amended 2 [1, 2]).2.1 (by decide)

/-- C4: `matrix_dims` returns the stated pairs for ranks 2 and 3, but for any
other rank it panics (modelled as `none`), aborting the process instead of
surfacing an error result. -/
theorem C4_matrix_dims_panics :
    Shape.matrix_dims (Shape.new [2, 2, 2, 2]) = none ∧
    Shape.matrix_dims (Shape.new [5]) = none ∧
    (∀ x y : ℕ, Shape.matrix_dims (Shape.new [x, y]) = some (x, y)) ∧
    (∀ x y z : ℕ, Shape.matrix_dims (Shape.new [x, y, z]) = some (y, z)) :=
  ⟨rfl, rfl, fun x y => rfl, fun x y z => rfl⟩

/-- C5: each GPU matmul dispatch selects the tiled pipeline variant iff
`m`, `n` and `k` are all at least the tile constant 16, and the naive variant
otherwise. -/
theorem C5_tiled_selection (m n k : ℕ) :
    (MetalBackend.matmulPipeline m n k = .matmulTiled ↔
      16 ≤ m ∧ 16 ≤ n ∧ 16 ≤ k) ∧
    (MetalBackend.matmulPipeline m n k = .matmul ↔
      ¬(16 ≤ m ∧ 16 ≤ n ∧ 16 ≤ k)) ∧
    (MetalBackend.matmulBatchedPipeline m n k = .matmulBatchedTiled ↔
      16 ≤ m ∧ 16 ≤ n ∧ 16 ≤ k) ∧
    (MetalBackend.matmulBatchedPipeline m n k = .matmulBatched ↔
      ¬(16 ≤ m ∧ 16 ≤ n ∧ 16 ≤ k)) ∧
    (MetalBackend.matmulTransposedPipeline m n k = .matmulTransposedTiled ↔
      16 ≤ m ∧ 16 ≤ n ∧ 16 ≤ k) ∧
    (MetalBackend.matmulTransposedPipeline m n k = .matmulTransposed ↔
      ¬(16 ≤ m ∧ 16 ≤ n ∧ 16 ≤ k)) := by
  by_cases h : 16 ≤ m ∧ 16 ≤ n ∧ 16 ≤ k <;>
    simp [MetalBackend.matmulPipeline, MetalBackend.matmulBatchedPipeline,
      MetalBackend.matmulTransposedPipeline, MetalBackend.TILE_SIZE, h]

/-- C7: add and multiply fail with ShapeMismatch exactly when the shapes
differ (element-wise and by rank), and otherwise return the element-wise
sum and product with the same shape. -/
theorem C7_add_multiply_shape (a b : Tensor) (hwa : a.WF) (hwb : b.WF) :
    (a.shape ≠ b.shape →
      a.add b = .err .ShapeMismatch ∧ a.multiply b = .err .ShapeMismatch) ∧
    (a.shape = b.shape →
      a.add b = .ok ⟨List.zipWith (· + ·) a.buffer b.buffer, a.shape⟩ ∧
      a.multiply b = .ok ⟨List.zipWith (· * ·) a.buffer b.buffer, a.shape⟩) := by
  constructor
  · intro h
    constructor <;> simp [Tensor.add, Tensor.multiply, h]
  · intro h
    have ha' : a.buffer.length = b.shape.size := by rw [hwa, h]
    have hb' : b.buffer.length = b.shape.size := hwb
    constructor <;>
      simp [Tensor.add, Tensor.multiply, h, CPUBackend.element_wise_add,
        CPUBackend.element_wise_multiply, ha', hb']

theorem C7_witness :
    ((Tensor.mk [1, 2, 3, 4, 5, 6] (Shape.new [2, 3])).add
        (Tensor.mk [6, 5, 4, 3, 2, 1] (Shape.new [3, 2])) =
      .err .ShapeMismatch) ∧
    ((Tensor.mk [1, 2, 3, 4, 5, 6] (Shape.new [2, 3])).multiply
        (Tensor.mk [6, 5, 4, 3, 2, 1] (Shape.new [3, 2])) =
      .err .ShapeMismatch) :=
  (C7_add_multiply_shape
    (Tensor.mk [1, 2, 3, 4, 5, 6] (Shape.new [2, 3]))
    (Tensor.mk [6, 5, 4, 3, 2, 1] (Shape.new [3, 2]))
    (by simp [Tensor.WF, Shape.size, Shape.new])
    (by simp [Tensor.WF, Shape.size, Shape.new])).1 (by decide)

/-- C8: every chain step passes an already-held error through unchanged, and
finish returns exactly the held result. -/
theorem C8_chain_short_circuit (e : FFError) (other : Tensor) (scalar : ℚ)
    (r : RustResult Tensor) :
    (TensorChain.mk (.err e)).matmul other = TensorChain.mk (.err e) ∧
    (TensorChain.mk (.err e)).add other = TensorChain.mk (.err e) ∧
    (TensorChain.mk (.err e)).multiply other = TensorChain.mk (.err e) ∧
    (TensorChain.mk (.err e)).scalar_multiply scalar = TensorChain.mk (.err e) ∧
    (TensorChain.mk r).finish = r :=
  ⟨rfl, rfl, rfl, rfl, rfl⟩

/-- C2: matmul classifies by inner-dimension match and batch presence:
equal-batch batched inputs give a batched result shape, plain-plain gives a
matrix result shape, and mixed or unequal-batch combinations (and any
inner-dimension mismatch) give ShapeMismatch. -/
theorem C2_matmul_classification (a b : Tensor) (hwa : a.WF) (hwb : b.WF)
    (m k1 k2 n : ℕ)
    (hma : a.shape.matrix_dims = some (m, k1))
    (hmb : b.shape.matrix_dims = some (k2, n)) :
    (k1 ≠ k2 → a.matmul b = .err .ShapeMismatch) ∧
    (k1 = k2 →
      (∀ b1 b2, a.shape.batch_size = some b1 → b.shape.batch_size = some b2 →
        (b1 = b2 → ∃ t, a.matmul b = .ok t ∧
          t.shape = Shape.new_batched b1 m n) ∧
        (b1 ≠ b2 → a.matmul b = .err .ShapeMismatch)) ∧
      (a.shape.batch_size = none → b.shape.batch_size = none →
        ∃ t, a.matmul b = .ok t ∧ t.shape = Shape.new [m, n]) ∧
      (a.shape.batch_size = none → (∃ b2, b.shape.batch_size = some b2) →
        a.matmul b = .err .ShapeMismatch) ∧
      ((∃ b1, a.shape.batch_size = some b1) → b.shape.batch_size = none →
        a.matmul b = .err .ShapeMismatch)) := by
  refine ⟨fun hk => Tensor.matmul_err_inner hma hmb hk, fun hk => ?_⟩
  subst hk
  refine ⟨?_, ?_, ?_, ?_⟩
  · intro b1 b2 hb1 hb2
    constructor
    · intro hbeq
      subst hbeq
      rcases Shape.matrix_dims_cases hma with hda | ⟨xa, hda⟩
      · rw [Shape.batch_size_eq_none hda] at hb1
        exact Option.noConfusion hb1
      · rcases Shape.matrix_dims_cases hmb with hdb | ⟨xb, hdb⟩
        · rw [Shape.batch_size_eq_none hdb] at hb2
          exact Option.noConfusion hb2
        · rw [Shape.batch_size_eq_some hda] at hb1
          rw [Shape.batch_size_eq_some hdb] at hb2
          have hxa : xa = b1 := Option.some.inj hb1
          have hxb : xb = b1 := Option.some.inj hb2
          subst hxa
          subst hxb
          obtain ⟨t, ht, hts, -, -, -⟩ := Tensor.matmul_ok_batched hwa hwb hda hdb
          exact ⟨t, ht, hts⟩
    · exact fun hbne => Tensor.matmul_err_batch hma hmb hb1 hb2 hbne
  · intro hb1 hb2
    rcases Shape.matrix_dims_cases hma with hda | ⟨xa, hda⟩
    · rcases Shape.matrix_dims_cases hmb with hdb | ⟨xb, hdb⟩
      · obtain ⟨t, ht, hts, -, -, -⟩ := Tensor.matmul_ok_plain hwa hwb hda hdb
        exact ⟨t, ht, hts⟩
      · rw [Shape.batch_size_eq_some hdb] at hb2
        exact Option.noConfusion hb2
    · rw [Shape.batch_size_eq_some hda] at hb1
      exact Option.noConfusion hb1
  · rintro hb1 ⟨b2, hb2⟩
    exact Tensor.matmul_err_mixed_left hma hmb hb1 hb2
  · rintro ⟨b1, hb1⟩ hb2
    exact Tensor.matmul_err_mixed_right hma hmb hb1 hb2

theorem C2_witness :
    ∃ t, (Tensor.mk (List.replicate 12 1) (Shape.new [2, 2, 3])).matmul
        (Tensor.mk (List.replicate 12 1) (Shape.new [2, 3, 2])) = .ok t ∧
      t.shape = Shape.new_batched 2 2 2 :=
  (((C2_matmul_classification
    (Tensor.mk (List.replicate 12 1) (Shape.new [2, 2, 3]))
    (Tensor.mk (List.replicate 12 1) (Shape.new [2, 3, 2]))
    (by simp [Tensor.WF, Shape.size, Shape.new])
    (by simp [Tensor.WF, Shape.size, Shape.new])
    2 3 3 2 rfl rfl).2 rfl).1 2 2 rfl rfl).1 rfl

/-- Construction through `Tensor::new` always yields a tensor satisfying the
buffer-length invariant, because `new` validates the data length first. -/
theorem Tensor.new_WF {shape : Shape} {data : List ℚ} {t : Tensor}
    (ht : Tensor.new shape data = .ok t) : t.WF := by
  by_cases h : data.length = shape.size
  · have heq : Tensor.new shape data = .ok ⟨data, shape⟩ := by
      simp [Tensor.new, h, CPUBackend.allocate_buffer]
    rw [heq] at ht
    obtain rfl := RustResult.ok.inj ht
    exact h
  · simp [Tensor.new, h] at ht

/-- C9: every tensor produced by the public constructors and by the CPU
operations satisfies the invariant that its buffer length equals its shape's
size. -/
theorem C9_buffer_invariant :
    (∀ (shape : Shape) (data : List ℚ) (t : Tensor),
      Tensor.new shape data = .ok t → t.WF) ∧
    (∀ (shape : Shape) (t : Tensor), Tensor.zeros shape = .ok t → t.WF) ∧
    (∀ (size : ℕ) (t : Tensor), Tensor.eye size = .ok t → t.WF) ∧
    (∀ (shape : Shape) (v : ℚ) (t : Tensor),
      Tensor.full shape v = .ok t → t.WF) ∧
    (∀ (a b t : Tensor), a.WF → b.WF → a.add b = .ok t → t.WF) ∧
    (∀ (a b t : Tensor), a.WF → b.WF → a.multiply b = .ok t → t.WF) ∧
    (∀ (a : Tensor) (s : ℚ) (t : Tensor),
      a.WF → a.scalar_multiply s = .ok t → t.WF) ∧
    (∀ (a b t : Tensor), a.WF → b.WF → a.matmul b = .ok t → t.WF) := by
  refine ⟨fun _ _ _ ht => Tensor.new_WF ht, ?_, ?_, ?_, ?_, ?_, ?_, ?_⟩
  · intro shape t ht
    have heq : Tensor.zeros shape = .ok ⟨List.replicate shape.size 0, shape⟩ := rfl
    rw [heq] at ht
    obtain rfl := RustResult.ok.inj ht
    exact List.length_replicate _ _
  · intro size t ht
    unfold Tensor.eye at ht
    rcases hf : (List.range size).foldlM
        (fun d i => setIdx d (i * size + i) 1)
        (List.replicate (size * size) (0 : ℚ)) with d | e | -
    · rw [hf, RustResult.bind_ok] at ht
      exact Tensor.new_WF ht
    · rw [hf, RustResult.bind_err] at ht
      exact RustResult.noConfusion ht
    · rw [hf, RustResult.bind_panicked] at ht
      exact RustResult.noConfusion ht
  · intro shape v t ht
    unfold Tensor.full at ht
    exact Tensor.new_WF ht
  · intro a b t hwa hwb ht
    by_cases h : a.shape = b.shape
    · have ha0 : a.buffer.length = a.shape.size := hwa
      have hb0 : b.buffer.length = b.shape.size := hwb
      have ha' : a.buffer.length = b.shape.size := by rw [ha0, h]
      have heq : a.add b =
          .ok ⟨List.zipWith (· + ·) a.buffer b.buffer, a.shape⟩ := by
        simp [Tensor.add, h, CPUBackend.element_wise_add, ha', hb0]
      rw [heq] at ht
      obtain rfl := RustResult.ok.inj ht
      show (List.zipWith (· + ·) a.buffer b.buffer).length = a.shape.size
      rw [List.length_zipWith, ha0, hb0, h]
      simp
    · simp [Tensor.add, h] at ht
  · intro a b t hwa hwb ht
    by_cases h : a.shape = b.shape
    · have ha0 : a.buffer.length = a.shape.size := hwa
      have hb0 : b.buffer.length = b.shape.size := hwb
      have ha' : a.buffer.length = b.shape.size := by rw [ha0, h]
      have heq : a.multiply b =
          .ok ⟨List.zipWith (· * ·) a.buffer b.buffer, a.shape⟩ := by
        simp [Tensor.multiply, h, CPUBackend.element_wise_multiply, ha', hb0]
      rw [heq] at ht
      obtain rfl := RustResult.ok.inj ht
      show (List.zipWith (· * ·) a.buffer b.buffer).length = a.shape.size
      rw [List.length_zipWith, ha0, hb0, h]
      simp
    · simp [Tensor.multiply, h] at ht
  · intro a s t hwa ht
    have ha0 : a.buffer.length = a.shape.size := hwa
    have heq : a.scalar_multiply s = .ok ⟨a.buffer.map (· * s), a.shape⟩ := by
      simp [Tensor.scalar_multiply, CPUBackend.scalar_multiply, ha0]
    rw [heq] at ht
    obtain rfl := RustResult.ok.inj ht
    show (a.buffer.map (· * s)).length = a.shape.size
    rw [List.length_map, ha0]
  · intro a b t hwa hwb ht
    by_cases hrank : a.shape.dims.length < 2 ∨ b.shape.dims.length < 2
    · rw [show a.matmul b = .err .ShapeMismatch from by
        unfold Tensor.matmul; rw [if_pos hrank]] at ht
      exact RustResult.noConfusion ht
    · rcases hma : a.shape.matrix_dims with - | ⟨m, k1⟩
      · rw [show a.matmul b = .panicked from by
          unfold Tensor.matmul; rw [if_neg hrank, hma]] at ht
        exact RustResult.noConfusion ht
      · rcases hmb : b.shape.matrix_dims with - | ⟨k2, n⟩
        · rw [show a.matmul b = .panicked from by
            unfold Tensor.matmul; rw [if_neg hrank, hma, hmb]] at ht
          exact RustResult.noConfusion ht
        · by_cases hk : k1 = k2
          · subst hk
            rcases Shape.matrix_dims_cases hma with hda | ⟨xa, hda⟩ <;>
              rcases Shape.matrix_dims_cases hmb with hdb | ⟨xb, hdb⟩
            · obtain ⟨t', ht', -, -, hWF, -⟩ :=
                Tensor.matmul_ok_plain hwa hwb hda hdb
              rw [ht'] at ht
              obtain rfl := RustResult.ok.inj ht
              exact hWF
            · rw [Tensor.matmul_err_mixed_left hma hmb
                (Shape.batch_size_eq_none hda)
                (Shape.batch_size_eq_some hdb)] at ht
              exact RustResult.noConfusion ht
            · rw [Tensor.matmul_err_mixed_right hma hmb
                (Shape.batch_size_eq_some hda)
                (Shape.batch_size_eq_none hdb)] at ht
              exact RustResult.noConfusion ht
            · by_cases hxab : xa = xb
              · subst hxab
                obtain ⟨t', ht', -, -, hWF, -⟩ :=
                  Tensor.matmul_ok_batched hwa hwb hda hdb
                rw [ht'] at ht
                obtain rfl := RustResult.ok.inj ht
                exact hWF
              · rw [Tensor.matmul_err_batch hma hmb
                  (Shape.batch_size_eq_some hda)
                  (Shape.batch_size_eq_some hdb) hxab] at ht
                exact RustResult.noConfusion ht
          · rw [Tensor.matmul_err_inner hma hmb hk] at ht
            exact RustResult.noConfusion ht

theorem C9_witness : (Tensor.mk [1, 2] (Shape.new [2])).WF :=
  C9_buffer_invariant.1 (Shape.new [2]) [1, 2]
    (Tensor.mk [1, 2] (Shape.new [2])) (by decide)

/-- `matmul_transposed` fails with ShapeMismatch when the flag-reinterpreted
inner dimensions differ. -/
theorem Tensor.matmul_transposed_err_inner {a b : Tensor} {ra ca rb cb : ℕ}
    {ta tb : Bool}
    (hma : a.shape.matrix_dims = some (ra, ca))
    (hmb : b.shape.matrix_dims = some (rb, cb))
    (hk : (if ta then ra else ca) ≠ (if tb then cb else rb)) :
    a.matmul_transposed b ta tb = .err .ShapeMismatch := by
  have hla : ¬ (a.shape.dims.length < 2 ∨ b.shape.dims.length < 2) := by
    rcases Shape.matrix_dims_cases hma with h | ⟨x, h⟩ <;>
    rcases Shape.matrix_dims_cases hmb with h' | ⟨x', h'⟩ <;>
    simp [h, h']
  unfold Tensor.matmul_transposed
  rw [if_neg hla, hma, hmb]
  simp [hk]

/-- `matmul_transposed` fails with ShapeMismatch on unequal batch counts. -/
theorem Tensor.matmul_transposed_err_batch {a b : Tensor} {ra ca rb cb : ℕ}
    {ta tb : Bool} {b1 b2 : ℕ}
    (hma : a.shape.matrix_dims = some (ra, ca))
    (hmb : b.shape.matrix_dims = some (rb, cb))
    (hk : (if ta then ra else ca) = (if tb then cb else rb))
    (hb1 : a.shape.batch_size = some b1) (hb2 : b.shape.batch_size = some b2)
    (hbb : b1 ≠ b2) : a.matmul_transposed b ta tb = .err .ShapeMismatch := by
  have hla : ¬ (a.shape.dims.length < 2 ∨ b.shape.dims.length < 2) := by
    rcases Shape.matrix_dims_cases hma with h | ⟨x, h⟩ <;>
    rcases Shape.matrix_dims_cases hmb with h' | ⟨x', h'⟩ <;>
    simp [h, h']
  have hcond : ¬((if ta then ra else ca) ≠ (if tb then cb else rb)) := by
    simp [hk]
  unfold Tensor.matmul_transposed
  rw [if_neg hla, hma, hmb, hb1, hb2]
  simp [hcond, hbb]

/-- `matmul_transposed` fails with ShapeMismatch on plain-vs-batched. -/
theorem Tensor.matmul_transposed_err_mixed_left {a b : Tensor}
    {ra ca rb cb : ℕ} {ta tb : Bool} {b2 : ℕ}
    (hma : a.shape.matrix_dims = some (ra, ca))
    (hmb : b.shape.matrix_dims = some (rb, cb))
    (hk : (if ta then ra else ca) = (if tb then cb else rb))
    (hb1 : a.shape.batch_size = none) (hb2 : b.shape.batch_size = some b2) :
    a.matmul_transposed b ta tb = .err .ShapeMismatch := by
  have hla : ¬ (a.shape.dims.length < 2 ∨ b.shape.dims.length < 2) := by
    rcases Shape.matrix_dims_cases hma with h | ⟨x, h⟩ <;>
    rcases Shape.matrix_dims_cases hmb with h' | ⟨x', h'⟩ <;>
    simp [h, h']
  have hcond : ¬((if ta then ra else ca) ≠ (if tb then cb else rb)) := by
    simp [hk]
  unfold Tensor.matmul_transposed
  rw [if_neg hla, hma, hmb, hb1, hb2]
  simp [hcond]

/-- `matmul_transposed` fails with ShapeMismatch on batched-vs-plain. -/
theorem Tensor.matmul_transposed_err_mixed_right {a b : Tensor}
    {ra ca rb cb : ℕ} {ta tb : Bool} {b1 : ℕ}
    (hma : a.shape.matrix_dims = some (ra, ca))
    (hmb : b.shape.matrix_dims = some (rb, cb))
    (hk : (if ta then ra else ca) = (if tb then cb else rb))
    (hb1 : a.shape.batch_size = some b1) (hb2 : b.shape.batch_size = none) :
    a.matmul_transposed b ta tb = .err .ShapeMismatch := by
  have hla : ¬ (a.shape.dims.length < 2 ∨ b.shape.dims.length < 2) := by
    rcases Shape.matrix_dims_cases hma with h | ⟨x, h⟩ <;>
    rcases Shape.matrix_dims_cases hmb with h' | ⟨x', h'⟩ <;>
    simp [h, h']
  have hcond : ¬((if ta then ra else ca) ≠ (if tb then cb else rb)) := by
    simp [hk]
  unfold Tensor.matmul_transposed
  rw [if_neg hla, hma, hmb, hb1, hb2]
  simp [hcond]

/-- `matmul_transposed` on two well-formed plain matrices with matching
reinterpreted inner dimensions succeeds with the reinterpreted result
shape. -/
theorem Tensor.matmul_transposed_ok_plain {a b : Tensor} {ra ca rb cb : ℕ}
    {ta tb : Bool} (hwa : a.WF) (hwb : b.WF)
    (hda : a.shape.dims = [ra, ca]) (hdb : b.shape.dims = [rb, cb])
    (hk : (if ta then ra else ca) = (if tb then cb else rb)) :
    ∃ t, a.matmul_transposed b ta tb = .ok t ∧
      t.shape = Shape.new [if ta then ca else ra, if tb then rb else cb] ∧
      t.WF := by
  have hma : a.shape.matrix_dims = some (ra, ca) := by
    simp [Shape.matrix_dims, hda]
  have hmb : b.shape.matrix_dims = some (rb, cb) := by
    simp [Shape.matrix_dims, hdb]
  have hba := Shape.batch_size_eq_none hda
  have hbb := Shape.batch_size_eq_none hdb
  have hla : ¬ (a.shape.dims.length < 2 ∨ b.shape.dims.length < 2) := by
    simp [hda, hdb]
  have hcond : ¬((if ta then ra else ca) ≠ (if tb then cb else rb)) := by
    simp [hk]
  have hlena : a.buffer.length = ra * ca := hwa.trans (Shape.size_eq_two hda)
  have hlenb : b.buffer.length = rb * cb := hwb.trans (Shape.size_eq_two hdb)
  have hbnd_a : ∀ i kk, i < (if ta then ca else ra) →
      kk < (if ta then ra else ca) →
      (if ta then kk * (if ta then ca else ra) + i
       else i * (if ta then ra else ca) + kk) < a.buffer.length := by
    intro i kk hi hkk
    rw [hlena]
    cases ta <;> simp at hi hkk ⊢
    · exact rowIdx_lt hi hkk
    · exact rowIdx_lt hkk hi
  have hbnd_b : ∀ kk j, kk < (if ta then ra else ca) →
      j < (if tb then rb else cb) →
      (if tb then j * (if ta then ra else ca) + kk
       else kk * (if tb then rb else cb) + j) < b.buffer.length := by
    intro kk j hkk hj
    rw [hlenb, hk] at *
    cases tb <;> simp at hkk hj ⊢
    · exact rowIdx_lt hkk hj
    · exact rowIdx_lt hj hkk
  obtain ⟨c, hc, hclen, -⟩ := CPUBackend.matmul_transposed_spec
    a.buffer b.buffer (if ta then ca else ra) (if tb then rb else cb)
    (if ta then ra else ca) ta tb hbnd_a hbnd_b
  refine ⟨⟨c, Shape.new [if ta then ca else ra, if tb then rb else cb]⟩,
    ?_, rfl, ?_⟩
  · unfold Tensor.matmul_transposed
    rw [if_neg hla, hma, hmb, hba, hbb]
    simp [hcond, hc]
  · simp [Tensor.WF, Shape.size, Shape.new, hclen]

/-- `matmul_transposed` on two well-formed batched tensors with equal batch
counts and matching reinterpreted inner dimensions succeeds with the
reinterpreted batched result shape. -/
theorem Tensor.matmul_transposed_ok_batched {a b : Tensor}
    {bz ra ca rb cb : ℕ} {ta tb : Bool} (hwa : a.WF) (hwb : b.WF)
    (hda : a.shape.dims = [bz, ra, ca]) (hdb : b.shape.dims = [bz, rb, cb])
    (hk : (if ta then ra else ca) = (if tb then cb else rb)) :
    ∃ t, a.matmul_transposed b ta tb = .ok t ∧
      t.shape = Shape.new_batched bz (if ta then ca else ra)
        (if tb then rb else cb) ∧ t.WF := by
  have hma : a.shape.matrix_dims = some (ra, ca) := by
    simp [Shape.matrix_dims, hda]
  have hmb : b.shape.matrix_dims = some (rb, cb) := by
    simp [Shape.matrix_dims, hdb]
  have hba := Shape.batch_size_eq_some hda
  have hbb := Shape.batch_size_eq_some hdb
  have hla : ¬ (a.shape.dims.length < 2 ∨ b.shape.dims.length < 2) := by
    simp [hda, hdb]
  have hcond : ¬((if ta then ra else ca) ≠ (if tb then cb else rb)) := by
    simp [hk]
  have hlena : a.buffer.length = bz * ra * ca :=
    hwa.trans (Shape.size_eq_three hda)
  have hlenb : b.buffer.length = bz * rb * cb :=
    hwb.trans (Shape.size_eq_three hdb)
  have hbnd_a : ∀ batch i kk, batch < bz → i < (if ta then ca else ra) →
      kk < (if ta then ra else ca) →
      batch * (if ta then ca else ra) * (if ta then ra else ca) +
        (if ta then kk * (if ta then ca else ra) + i
         else i * (if ta then ra else ca) + kk) < a.buffer.length := by
    intro batch i kk hbatch hi hkk
    rw [hlena]
    cases ta <;> simp at hi hkk ⊢
    · have h2 : batch * (ra * ca) + (i * ca + kk) < bz * (ra * ca) :=
        rowIdx_lt hbatch (rowIdx_lt hi hkk)
      calc batch * ra * ca + (i * ca + kk)
          = batch * (ra * ca) + (i * ca + kk) := by ring
        _ < bz * (ra * ca) := h2
        _ = bz * ra * ca := by ring
    · have h1 : kk * ca + i < ra * ca := rowIdx_lt hkk hi
      have h2 : batch * (ca * ra) + (kk * ca + i) < bz * (ca * ra) := by
        have h1' : kk * ca + i < ca * ra := by rw [Nat.mul_comm ca ra]; exact h1
        exact rowIdx_lt hbatch h1'
      calc batch * ca * ra + (kk * ca + i)
          = batch * (ca * ra) + (kk * ca + i) := by ring
        _ < bz * (ca * ra) := h2
        _ = bz * ra * ca := by ring
  have hbnd_b : ∀ batch kk j, batch < bz →
      kk < (if ta then ra else ca) → j < (if tb then rb else cb) →
      batch * (if ta then ra else ca) * (if tb then rb else cb) +
        (if tb then j * (if ta then ra else ca) + kk
         else kk * (if tb then rb else cb) + j) < b.buffer.length := by
    intro batch kk j hbatch hkk hj
    rw [hlenb, hk] at *
    cases tb <;> simp at hkk hj ⊢
    · have h2 : batch * (rb * cb) + (kk * cb + j) < bz * (rb * cb) :=
        rowIdx_lt hbatch (rowIdx_lt hkk hj)
      calc batch * rb * cb + (kk * cb + j)
          = batch * (rb * cb) + (kk * cb + j) := by ring
        _ < bz * (rb * cb) := h2
        _ = bz * rb * cb := by ring
    · have h1 : j * cb + kk < rb * cb := rowIdx_lt hj hkk
      have h2 : batch * (cb * rb) + (j * cb + kk) < bz * (cb * rb) := by
        have h1' : j * cb + kk < cb * rb := by rw [Nat.mul_comm cb rb]; exact h1
        exact rowIdx_lt hbatch h1'
      calc batch * cb * rb + (j * cb + kk)
          = batch * (cb * rb) + (j * cb + kk) := by ring
        _ < bz * (cb * rb) := h2
        _ = bz * rb * cb := by ring
  obtain ⟨c, hc, hclen⟩ := CPUBackend.matmul_transposed_batched_spec
    a.buffer b.buffer bz (if ta then ca else ra) (if tb then rb else cb)
    (if ta then ra else ca) ta tb hbnd_a hbnd_b
  refine ⟨⟨c, Shape.new_batched bz (if ta then ca else ra)
    (if tb then rb else cb)⟩, ?_, rfl, ?_⟩
  · unfold Tensor.matmul_transposed
    rw [if_neg hla, hma, hmb, hba, hbb]
    simp [hcond, hc]
  · simp [Tensor.WF, Shape.size, Shape.new_batched, hclen, Nat.mul_assoc]

/-- C6: multiplying two transpose wrappers invokes the tensor-level
`matmul_transposed` with both flags, and `matmul_transposed` performs the
same shape-compatibility checks as `matmul` with each operand's logical
rows/cols swapped under its transpose flag before the inner-dimension
check. -/
theorem C6_transposed_mul (x y : TransposedTensor)
    (hwx : x.tensor.WF) (hwy : y.tensor.WF) (ra ca rb cb : ℕ)
    (hma : x.tensor.shape.matrix_dims = some (ra, ca))
    (hmb : y.tensor.shape.matrix_dims = some (rb, cb)) :
    x.mul y = x.tensor.matmul_transposed y.tensor x.transpose y.transpose ∧
    ((if x.transpose then ra else ca) ≠ (if y.transpose then cb else rb) →
      x.mul y = .err .ShapeMismatch) ∧
    ((if x.transpose then ra else ca) = (if y.transpose then cb else rb) →
      (x.tensor.shape.batch_size = none → y.tensor.shape.batch_size = none →
        ∃ t, x.mul y = .ok t ∧ t.shape = Shape.new
          [if x.transpose then ca else ra, if y.transpose then rb else cb]) ∧
      (∀ b1 b2, x.tensor.shape.batch_size = some b1 →
          y.tensor.shape.batch_size = some b2 →
        (b1 = b2 → ∃ t, x.mul y = .ok t ∧ t.shape = Shape.new_batched b1
          (if x.transpose then ca else ra) (if y.transpose then rb else cb)) ∧
        (b1 ≠ b2 → x.mul y = .err .ShapeMismatch)) ∧
      (x.tensor.shape.batch_size = none →
        (∃ b2, y.tensor.shape.batch_size = some b2) →
        x.mul y = .err .ShapeMismatch) ∧
      ((∃ b1, x.tensor.shape.batch_size = some b1) →
        y.tensor.shape.batch_size = none →
        x.mul y = .err .ShapeMismatch)) := by
  refine ⟨rfl, ?_, ?_⟩
  · exact fun hk => Tensor.matmul_transposed_err_inner hma hmb hk
  · intro hk
    refine ⟨?_, ?_, ?_, ?_⟩
    · intro hb1 hb2
      rcases Shape.matrix_dims_cases hma with hda | ⟨xa, hda⟩
      · rcases Shape.matrix_dims_cases hmb with hdb | ⟨xb, hdb⟩
        · obtain ⟨t, ht, hts, -⟩ :=
            Tensor.matmul_transposed_ok_plain hwx hwy hda hdb hk
          exact ⟨t, ht, hts⟩
        · rw [Shape.batch_size_eq_some hdb] at hb2
          exact Option.noConfusion hb2
      · rw [Shape.batch_size_eq_some hda] at hb1
        exact Option.noConfusion hb1
    · intro b1 b2 hb1 hb2
      constructor
      · intro hbeq
        subst hbeq
        rcases Shape.matrix_dims_cases hma with hda | ⟨xa, hda⟩
        · rw [Shape.batch_size_eq_none hda] at hb1
          exact Option.noConfusion hb1
        · rcases Shape.matrix_dims_cases hmb with hdb | ⟨xb, hdb⟩
          · rw [Shape.batch_size_eq_none hdb] at hb2
            exact Option.noConfusion hb2
          · rw [Shape.batch_size_eq_some hda] at hb1
            rw [Shape.batch_size_eq_some hdb] at hb2
            have hxa : xa = b1 := Option.some.inj hb1
            have hxb : xb = b1 := Option.some.inj hb2
            subst hxa
            subst hxb
            obtain ⟨t, ht, hts, -⟩ :=
              Tensor.matmul_transposed_ok_batched hwx hwy hda hdb hk
            exact ⟨t, ht, hts⟩
      · exact fun hbne =>
          Tensor.matmul_transposed_err_batch hma hmb hk hb1 hb2 hbne
    · rintro hb1 ⟨b2, hb2⟩
      exact Tensor.matmul_transposed_err_mixed_left hma hmb hk hb1 hb2
    · rintro ⟨b1, hb1⟩ hb2
      exact Tensor.matmul_transposed_err_mixed_right hma hmb hk hb1 hb2

theorem C6_witness :
    ∃ t, (TransposedTensor.mk
        (Tensor.mk [1, 2, 3, 4, 5, 6] (Shape.new [3, 2])) true).mul
      (TransposedTensor.mk
        (Tensor.mk [1, 2, 3, 4, 5, 6] (Shape.new [3, 2])) false) = .ok t ∧
      t.shape = Shape.new [2, 2] :=
  ((((C6_transposed_mul
    (TransposedTensor.mk (Tensor.mk [1, 2, 3, 4, 5, 6] (Shape.new [3, 2])) true)
    (TransposedTensor.mk (Tensor.mk [1, 2, 3, 4, 5, 6] (Shape.new [3, 2])) false)
    (by simp [Tensor.WF, Shape.size, Shape.new])
    (by simp [Tensor.WF, Shape.size, Shape.new])
    3 2 3 2 rfl rfl).2.2 rfl).1) rfl rfl)
